import Mathlib

/-!
Verification of the path-based access / set / equality utilities of
`@typhonjs-utils/object` (`src/functions.ts`).

The repository ships several historical variants of the same functions.  The
variants relevant here:

* the current variant (`safeAccess` at functions.ts:1423, `safeEqual` at
  functions.ts:1498, `safeSet` at functions.ts:1534, `getAccessorList` at
  functions.ts:1182 with `_getAccessorList` at functions.ts:1804);
* the older variant (`safeAccess` at functions.ts:310, `safeEqual` at
  functions.ts:382, `safeSet` at functions.ts:421), whose guards differ from
  the current one (`typeof data !== 'object'` only, without a `null` check,
  and an `undefined`/`null` guard in `safeEqual` instead of `isObject`).

`safeSet` and `_getAccessorList` are textually identical across variants
(up to `typeof x === 'undefined'` versus `x === void 0`, which agree), so a
single embedding serves both.

JavaScript values are modelled as finite trees.  Objects and arrays are both
property maps (`JProps`, kept in JS own-enumerable `for...in` order) with an
`array` tag for `Array.isArray`; the prototype chain is not modelled (the code
only filters with `hasOwnProperty` and reads data properties).  Reference
identity of objects and functions is not expressible in a value tree; functions
carry a numeric id standing for their identity, and strict equality of two
objects is modelled as `false` (see `strictEq`).  Numbers are exact rationals
plus `NaN` and signed infinities; IEEE-754 rounding and `-0` are abstracted
away, and `ToNumber` string parsing covers the decimal forms (`"12"`, `"-3"`,
`"1.5"`, `""`, whitespace, `"Infinity"`) but not hex or exponent notation.
Operations that throw `TypeError` are embedded in `Except Unit`.
-/

/-- A JavaScript number: an exact rational, `NaN`, or a signed infinity.
Float rounding and `-0` are abstracted away. -/
inductive JNum where
  | fin (q : ℚ)
  | nan
  | inf
  | ninf
deriving DecidableEq

mutual

/-- A JavaScript value tree.  `obj array props` covers both plain objects
(`array = false`) and arrays (`array = true`); array elements sit in `props`
under their canonical decimal index keys, in enumeration order. -/
inductive JVal where
  | undef
  | null
  | bool (b : Bool)
  | num (n : JNum)
  | str (s : String)
  | fn (id : Nat)
  | obj (array : Bool) (props : JProps)

/-- Own enumerable properties of an object, in `for...in` order. -/
inductive JProps where
  | nil
  | cons (key : String) (value : JVal) (rest : JProps)

end

namespace JS

/-- The key/value pairs of a property list. -/
def JProps.toList : JProps → List (String × JVal)
  | .nil => []
  | .cons k v rest => (k, v) :: JProps.toList rest

/-- The keys of a property list, in order. -/
def JProps.keys : JProps → List String
  | .nil => []
  | .cons k _ rest => k :: JProps.keys rest

/-- Property read on a property list: `undefined` when the key is absent. -/
def jsLookup : JProps → String → JVal
  | .nil, _ => .undef
  | .cons k v rest, key => if k = key then v else jsLookup rest key

/-- Property write on a property list: replaces an existing binding in place,
otherwise appends (matching JS property creation order for fresh keys). -/
def setProps : JProps → String → JVal → JProps
  | .nil, key, v => .cons key v .nil
  | .cons k w rest, key, v =>
      if k = key then .cons key v rest else .cons k w (setProps rest key v)

/-- The JS `typeof` operator.  Note `typeof null === 'object'`. -/
def jsTypeof : JVal → String
  | .undef => "undefined"
  | .null => "object"
  | .bool _ => "boolean"
  | .num _ => "number"
  | .str _ => "string"
  | .fn _ => "function"
  | .obj _ _ => "object"

/-- `value === null`. -/
def isNull : JVal → Bool
  | .null => true
  | _ => false

/-- `value === undefined` / `typeof value === 'undefined'`. -/
def isUndef : JVal → Bool
  | .undef => true
  | _ => false

/-- `isObject` (functions.ts:1343):
`value !== null && typeof value === 'object' && !Array.isArray(value)`. -/
def isObject : JVal → Bool
  | .obj array _ => !array
  | _ => false

/-- `Array.isArray`. -/
def isArrayJS : JVal → Bool
  | .obj array _ => array
  | _ => false

/-- Numeric value of a digit list, most significant first. -/
def natOfDigits (cs : List Char) : Nat :=
  cs.foldl (fun n c => 10 * n + (c.toNat - 48)) 0

/-- Canonical array-index form of a string: nonempty, all digits, and no
leading zero (so `"01"` is a plain property name, not an index). -/
def canonicalIndex? (s : String) : Option Nat :=
  match s.data with
  | [] => none
  | ['0'] => some 0
  | c :: cs =>
      if c.isDigit && c ≠ '0' && cs.all Char.isDigit
      then some (natOfDigits (c :: cs)) else none

/-- Property read on a string primitive: `'abc'['1']`, `'abc'.length`. -/
def strProp (s : String) (key : String) : JVal :=
  if key = "length" then .num (.fin s.length)
  else
    match canonicalIndex? key with
    | some i =>
        match s.data.drop i with
        | c :: _ => .str (String.mk [c])
        | [] => .undef
    | none => (.undef)

/-- Property read `receiver[key]`.  Reading a property of `undefined` or
`null` throws a `TypeError`; primitives are boxed and yield their (data)
properties, with the properties of boxed numbers/booleans and of function
objects abstracted to `undefined`. -/
def jsGet : JVal → String → Except Unit JVal
  | .undef, _ => .error ()
  | .null, _ => .error ()
  | .obj _ props, key => .ok (jsLookup props key)
  | .str s, key => .ok (strProp s key)
  | _, _ => .ok (.undef)

/-- Property read on a value known not to be `undefined`/`null`
(the non-throwing restriction of `jsGet`). -/
def getOwn : JVal → String → JVal
  | .obj _ props, key => jsLookup props key
  | .str s, key => strProp s key
  | _, _ => (.undef)

/-- `accessor.split('.')` at the character level (single-character separator,
no regex, no limit): always returns at least one group, `''` yielding `[[]]`
just as `''.split('.')` yields `['']`. -/
def splitDot : List Char → List (List Char)
  | [] => [[]]
  | '.' :: cs => [] :: splitDot cs
  | c :: cs =>
      match splitDot cs with
      | [] => [[c]]
      | g :: gs => (c :: g) :: gs

/-- `accessor.split('.')`. -/
def jsSplitDot (s : String) : List String :=
  (splitDot s.data).map String.mk

/-- Decimal literal parse used by `ToNumber` on strings: optional sign, then
digits, a dotted fraction, or both (`"12"`, `"-3"`, `"1."`, `".5"`). -/
def parseDecimal (cs : List Char) : Option ℚ :=
  let core : List Char → Option ℚ := fun ds =>
    let intPart := ds.takeWhile Char.isDigit
    match ds.drop intPart.length with
    | [] => if intPart = [] then none else some (natOfDigits intPart)
    | '.' :: fracCs =>
        let fracPart := fracCs.takeWhile Char.isDigit
        if fracCs.drop fracPart.length ≠ [] then none
        else if intPart = [] ∧ fracPart = [] then none
        else some ((natOfDigits intPart : ℚ) +
          (natOfDigits fracPart : ℚ) / ((10 : ℚ) ^ fracPart.length))
    | _ => none
  match cs with
  | '-' :: rest => (core rest).map (fun q => -q)
  | '+' :: rest => core rest
  | rest => core rest

/-- The whitespace trim `ToNumber` applies to a string, at the character
level (JS also strips some exotic Unicode space code points; not modelled). -/
def jsTrim (s : String) : String :=
  String.mk
    (((s.data.dropWhile Char.isWhitespace).reverse.dropWhile
      Char.isWhitespace).reverse)

/-- JS `ToNumber` on a string: trimmed empty string is `0`, decimal forms and
`Infinity` parse, anything else is `NaN` (hex and exponent forms are not
modelled and fall to `NaN`; no claim exercises them). -/
def toNumberString (s : String) : JNum :=
  let t := jsTrim s
  if t = "" then .fin 0
  else if t = "Infinity" ∨ t = "+Infinity" then .inf
  else if t = "-Infinity" then .ninf
  else
    match parseDecimal t.data with
    | some q => .fin q
    | none => .nan

/-- The array-index guard of `safeSet` (functions.ts:1543):
`Number.isInteger(+segment) && +segment >= 0`. -/
def validArrayIndex (s : String) : Bool :=
  match toNumberString s with
  | .fin q => q.den = 1 && 0 ≤ q
  | _ => false

/-- JS number addition with `NaN`/infinity propagation. -/
def numAdd : JNum → JNum → JNum
  | .fin a, .fin b => .fin (a + b)
  | .nan, _ => .nan
  | _, .nan => .nan
  | .inf, .ninf => .nan
  | .ninf, .inf => .nan
  | .inf, _ => .inf
  | _, .inf => .inf
  | .ninf, _ => .ninf
  | _, .ninf => .ninf

/-- JS number negation. -/
def numNeg : JNum → JNum
  | .fin a => .fin (-a)
  | .nan => .nan
  | .inf => .ninf
  | .ninf => .inf

/-- JS number subtraction. -/
def numSub (a b : JNum) : JNum := numAdd a (numNeg b)

/-- JS number multiplication; an infinity times zero is `NaN`. -/
def numMul : JNum → JNum → JNum
  | .fin a, .fin b => .fin (a * b)
  | .nan, _ => .nan
  | _, .nan => .nan
  | .inf, .inf => .inf
  | .inf, .ninf => .ninf
  | .ninf, .inf => .ninf
  | .ninf, .ninf => .inf
  | .inf, .fin b => if 0 < b then .inf else if b < 0 then .ninf else .nan
  | .fin a, .inf => if 0 < a then .inf else if a < 0 then .ninf else .nan
  | .ninf, .fin b => if 0 < b then .ninf else if b < 0 then .inf else .nan
  | .fin a, .ninf => if 0 < a then .ninf else if a < 0 then .inf else .nan

/-- JS number division: division by zero gives a signed infinity (`0/0` is
`NaN`); a finite value over an infinity is `0` (sign of zero abstracted). -/
def numDiv : JNum → JNum → JNum
  | .nan, _ => .nan
  | _, .nan => .nan
  | .fin a, .fin b =>
      if b = 0 then (if a = 0 then .nan else if 0 < a then .inf else .ninf)
      else .fin (a / b)
  | .fin _, .inf => .fin 0
  | .fin _, .ninf => .fin 0
  | .inf, .fin b => if 0 ≤ b then .inf else .ninf
  | .ninf, .fin b => if 0 ≤ b then .ninf else .inf
  | .inf, _ => .nan
  | .ninf, _ => .nan

/-- Decimal rendering of a JS number.  Integral rationals render exactly as JS
does; non-integral ones are abstracted (IEEE-754 shortest-round-trip output is
not modelled, and no claim depends on it). -/
def numToString : JNum → String
  | .nan => "NaN"
  | .inf => "Infinity"
  | .ninf => "-Infinity"
  | .fin q => if q.den = 1 then toString q.num else toString q

mutual

/-- JS `ToString`.  Arrays render as `Array.prototype.join(',')` over their
elements in property order (the model keeps array elements dense and in
order); plain objects render as `"[object Object]"`; the source text of a
function is abstracted to `"function"`. -/
def jsToString : JVal → String
  | .undef => "undefined"
  | .null => "null"
  | .bool b => if b then "true" else "false"
  | .num n => numToString n
  | .str s => s
  | .fn _ => "function"
  | .obj false _ => "[object Object]"
  | .obj true props => joinElems props

/-- `Array.prototype.join(',')`: `undefined`/`null` elements print empty. -/
def joinElems : JProps → String
  | .nil => ""
  | .cons _ v .nil =>
      match v with
      | .undef => ""
      | .null => ""
      | w => jsToString w
  | .cons _ v rest =>
      (match v with
       | .undef => ""
       | .null => ""
       | w => jsToString w) ++ "," ++ joinElems rest

end

/-- JS `ToPrimitive` with the default hint: objects (and functions) convert
through `ToString`; primitives are returned unchanged. -/
def jsToPrimitive : JVal → JVal
  | .obj array props => .str (jsToString (.obj array props))
  | .fn id => .str (jsToString (.fn id))
  | v => v

/-- `ToNumber` on a primitive. -/
def toNumberPrim : JVal → JNum
  | .undef => .nan
  | .null => .fin 0
  | .bool b => .fin (if b then 1 else 0)
  | .num n => n
  | .str s => toNumberString s
  | .fn _ => .nan
  | .obj _ _ => .nan

/-- JS `ToNumber`. -/
def jsToNumber (v : JVal) : JNum := toNumberPrim (jsToPrimitive v)

/-- JS `+` (as used by `data[key] += value`): string concatenation when either
primitive operand is a string, numeric addition otherwise. -/
def jsAdd (a b : JVal) : JVal :=
  match jsToPrimitive a, jsToPrimitive b with
  | .str sa, pb => .str (sa ++ jsToString pb)
  | pa, .str sb => .str (jsToString pa ++ sb)
  | pa, pb => .num (numAdd (toNumberPrim pa) (toNumberPrim pb))

/-- JS `-=`. -/
def jsSub (a b : JVal) : JVal := .num (numSub (jsToNumber a) (jsToNumber b))

/-- JS `*=`. -/
def jsMul (a b : JVal) : JVal := .num (numMul (jsToNumber a) (jsToNumber b))

/-- JS `/=`. -/
def jsDiv (a b : JVal) : JVal := .num (numDiv (jsToNumber a) (jsToNumber b))

/-- The terminal-segment `switch (operation)` of `safeSet`
(functions.ts:1557-1584): `some w` means the slot is assigned `w`; `none`
means no assignment happened (`set-undefined` on a defined slot, or an
operation name matching no `case` — the switch has no `default`). -/
def setOp (operation : String) (old value : JVal) : Option JVal :=
  if operation = "add" then some (jsAdd old value)
  else if operation = "div" then some (jsDiv old value)
  else if operation = "mult" then some (jsMul old value)
  else if operation = "set" then some value
  else if operation = "set-undefined" then
    (if isUndef old then some value else none)
  else if operation = "sub" then some (jsSub old value)
  else none

/-- Whether an operation name matches some `case` of the switch (every such
case touches `data[key]`, which matters for a `null` receiver). -/
def isOpName (operation : String) : Bool :=
  operation = "add" ∨ operation = "div" ∨ operation = "mult" ∨
  operation = "set" ∨ operation = "set-undefined" ∨ operation = "sub"

/-- The walk loop shared by both `safeAccess` variants (functions.ts:318-325
and functions.ts:1457-1464; the loop bodies agree): step through the
segments, substituting the default as soon as the next level reads as
`undefined` or `null`.  A `TypeError` (possible only when the starting value
is `null`, which the older variant's guard lets through) surfaces as
`.error`. -/
def accessLoop (defaultValue : JVal) : JVal → List String → Except Unit JVal
  | result, [] => .ok result
  | result, key :: rest => do
      let v ← jsGet result key
      match v with
      | .undef => .ok defaultValue
      | .null => .ok defaultValue
      | v => accessLoop defaultValue v rest

/-- `safeAccess` — current variant (functions.ts:1423-1443).  Guard:
`typeof data !== 'object' || data === null` and `typeof accessor !==
'string'` return the default. -/
def safeAccess (data accessor defaultValue : JVal) : Except Unit JVal :=
  if jsTypeof data ≠ "object" ∨ isNull data then .ok defaultValue
  else
    match accessor with
    | .str s => accessLoop defaultValue data (jsSplitDot s)
    | _ => .ok defaultValue

/-- `safeAccess` — older variant (functions.ts:310-327, also
functions.ts:2144): its guard checks only `typeof data !== 'object'`, so a
`null` root (for which `typeof` is `'object'`) reaches the loop and the first
property read throws. -/
def safeAccess_v1 (data accessor defaultValue : JVal) : Except Unit JVal :=
  if jsTypeof data ≠ "object" then .ok defaultValue
  else
    match accessor with
    | .str s => accessLoop defaultValue data (jsSplitDot s)
    | _ => .ok defaultValue

mutual

/-- `_getAccessorList` (functions.ts:1804-1829, identical in the older
variant): `for (const key in data)` over own enumerable keys; a value with
`typeof === 'object'` (a plain object, an array, or `null` — `for...in` over
`null` yields nothing) is recursed into and its child accessors are
dot-joined under the key; any other value contributes the key itself.  (The
source's `Array.isArray(childKey)` ternary is dead: `childKeys` is a string
array, so only the string branch can run.)  `for...in` over a string
primitive yields its index keys; over other primitives it yields nothing. -/
def _getAccessorList : JVal → List String
  | .obj _ props => galProps props
  | .str s => (List.range s.length).map (fun i => toString i)
  | _ => []

/-- The `for...in` body of `_getAccessorList` over the property list. -/
def galProps : JProps → List String
  | .nil => []
  | .cons key v rest =>
      (if jsTypeof v = "object" then
        (_getAccessorList v).map (fun childKey => key ++ "." ++ childKey)
      else [key]) ++ galProps rest

end

/-- `getAccessorList` (functions.ts:1182-1187): throws a `TypeError` when
`typeof data !== 'object'` (so `null` is accepted and yields `[]`). -/
def getAccessorList (data : JVal) : Except Unit (List String) :=
  if jsTypeof data ≠ "object" then .error ()
  else .ok (_getAccessorList data)

/-- JS strict equality on JS-number values (`NaN` is unequal to itself). -/
def numStrictEq : JNum → JNum → Bool
  | .fin a, .fin b => a = b
  | .inf, .inf => true
  | .ninf, .ninf => true
  | _, _ => false

/-- JS strict equality `===` as used by `safeEqual` on two leaf reads.
Functions compare by identity through their id.  Two objects compare by
reference; a value tree cannot express aliasing, so the object/object case is
modelled as `false` — in `safeEqual` the source-side operand is a leaf read
off an accessor list and is never an object, so the case is out of reach
(see `c8`/`c9` which only exercise primitive leaves). -/
def strictEq : JVal → JVal → Bool
  | .undef, .undef => true
  | .null, .null => true
  | .bool a, .bool b => a = b
  | .num a, .num b => numStrictEq a b
  | .str a, .str b => a = b
  | .fn i, .fn j => i = j
  | _, _ => false

/-- The comparison loop of the current `safeEqual` (functions.ts:1504-1512):
walk the source's accessor list, reading both trees with the current
`safeAccess` and short-circuiting on the first strict inequality. -/
def eqLoop (source target : JVal) : List String → Except Unit Bool
  | [] => .ok true
  | acc :: rest => do
      let sv ← safeAccess source (.str acc) .undef
      let tv ← safeAccess target (.str acc) .undef
      if strictEq sv tv then eqLoop source target rest else .ok false

/-- `safeEqual` — current variant (functions.ts:1498-1515).  Guard:
`!isObject(source) || !isObject(target)` returns `false` (this also rejects
arrays); then every accessor of `source` must read strictly equal in both. -/
def safeEqual (source target : JVal) : Except Unit Bool :=
  if ¬ isObject source ∨ ¬ isObject target then .ok false
  else do
    let accs ← getAccessorList source
    eqLoop source target accs

/-- The comparison loop of the older `safeEqual` (functions.ts:391-399),
reading through the older `safeAccess`. -/
def eqLoop_v1 (source target : JVal) : List String → Except Unit Bool
  | [] => .ok true
  | acc :: rest => do
      let sv ← safeAccess_v1 source (.str acc) .undef
      let tv ← safeAccess_v1 target (.str acc) .undef
      if strictEq sv tv then eqLoop_v1 source target rest else .ok false

/-- `safeEqual` — older variant (functions.ts:382-402, also
functions.ts:2216): its guard returns `false` only for `undefined`/`null`
inputs, so a primitive source reaches `getAccessorList`, which throws. -/
def safeEqual_v1 (source target : JVal) : Except Unit Bool :=
  if isUndef source ∨ isNull source ∨ isUndef target ∨ isNull target then
    .ok false
  else do
    let accs ← getAccessorList source
    eqLoop_v1 source target accs

/-- In-place property write `receiver[key] = v` on an object or array. -/
def setProp : JVal → String → JVal → JVal
  | .obj array props, key, v => .obj array (setProps props key v)
  | d, _, _ => d

/-- The walk loop of `safeSet` (functions.ts:1538-1594) for a non-`null`
root, where no step can throw: a step into an array demands a non-negative
integer segment (else `false` with nothing touched at this step); at the
terminal segment the switch applies `setOp`; at an intermediate segment a
missing slot is created as `{}` when `createMissing` is set, and a `null` or
non-object next level aborts with `false`.  The returned tree threads the
in-place mutations performed so far. -/
def safeSetWalk (value : JVal) (operation : String) (createMissing : Bool) :
    JVal → List String → Bool × JVal
  | data, [] => (true, data)
  | data, [key] =>
      if isArrayJS data ∧ ¬ validArrayIndex key then (false, data)
      else
        match setOp operation (getOwn data key) value with
        | some w => (true, setProp data key w)
        | none => (true, data)
  | data, key :: seg :: rest =>
      if isArrayJS data ∧ ¬ validArrayIndex key then (false, data)
      else
        let data1 :=
          if createMissing ∧ isUndef (getOwn data key) then
            setProp data key (.obj false .nil)
          else data
        let next := getOwn data1 key
        if isNull next ∨ jsTypeof next ≠ "object" then (false, data1)
        else
          let r := safeSetWalk value operation createMissing next (seg :: rest)
          (r.1, setProp data1 key r.2)

/-- The walk of `safeSet` specialized to a `null` root (which `typeof data
!== 'object'` does not reject): with more than one segment the intermediate
step reads `null[key]` and throws; with a single segment every matching
switch case touches `null[key]` and throws, while an operation name matching
no case performs no access at all and the loop falls through to
`return true`. -/
def nullRootResult (operation : String) : List String → Except Unit (Bool × JVal)
  | [] => .ok (true, .null)
  | [_] => if isOpName operation then .error () else .ok (true, .null)
  | _ => .error ()

/-- `safeSet` (functions.ts:1534-1595; the older variant at
functions.ts:421-482 is textually identical up to `typeof x === 'undefined'`
versus `x === void 0`): throws a `TypeError` for a non-object `data` or a
non-string `accessor`; a `null` root passes the guard and throws (or, for an
unmatched operation name on a single segment, returns `true`) on first
property access; otherwise runs the pure walk. -/
def safeSet (data accessor value : JVal) (operation : String)
    (createMissing : Bool) : Except Unit (Bool × JVal) :=
  if jsTypeof data ≠ "object" then .error ()
  else
    match accessor with
    | .str s =>
        match data with
        | .null => nullRootResult operation (jsSplitDot s)
        | d => .ok (safeSetWalk value operation createMissing d (jsSplitDot s))
    | _ => .error ()

/-- Whether a string contains no `.` — i.e. whether, used as a property key,
it survives `split('.')` as a single segment. -/
def dotFree (s : String) : Bool := s.data.all (fun c => c != '.')

/-- The first `.`-separated segment of an accessor string. -/
def headSeg (s : String) : String :=
  String.mk (s.data.takeWhile (fun c => c != '.'))

/-- All keys of a property list are single segments (no embedded `.`). -/
def keysDotFree (props : JProps) : Bool := (JProps.keys props).all dotFree

/-! ### Basic lemmas about the property-map primitives -/

/-- Induction over a property list alone (the mutually inductive `JVal` is
not recursed into). -/
theorem JProps.inductionOn {motive : JProps → Prop} (nil : motive .nil)
    (cons : ∀ k v rest, motive rest → motive (.cons k v rest)) :
    ∀ props, motive props
  | .nil => nil
  | .cons k v rest => cons k v rest (JProps.inductionOn nil cons rest)

/-- Reading back a freshly written property yields the written value. -/
theorem jsLookup_setProps (props : JProps) (key : String) (v : JVal) :
    jsLookup (setProps props key v) key = v := by
  induction props using JProps.inductionOn with
  | nil => simp [setProps, jsLookup]
  | cons k w rest ih =>
      by_cases h : k = key
      · simp [setProps, h, jsLookup]
      · simp [setProps, h, jsLookup, ih]

/-- Writing back the value a key already holds leaves the property list
unchanged (the key is present because the read was not `undefined`). -/
theorem setProps_self (props : JProps) (key : String) (v : JVal)
    (hv : v ≠ .undef) (h : jsLookup props key = v) : setProps props key v = props := by
  induction props using JProps.inductionOn with
  | nil =>
      simp [jsLookup] at h
      exact absurd h.symm hv
  | cons k w rest ih =>
      by_cases hk : k = key
      · simp [jsLookup, hk] at h
        subst h
        simp [setProps, hk]
      · simp [jsLookup, hk] at h
        simp [setProps, hk, ih h]

/-- `split('.')` always produces at least one group. -/
theorem splitDot_ne_nil : ∀ cs : List Char, splitDot cs ≠ [] := by
  intro cs
  induction cs with
  | nil => simp [splitDot]
  | cons c rest ih =>
      by_cases h : c = '.'
      · subst h; simp [splitDot]
      · rw [splitDot.eq_def]
        cases c with
        | mk val valid =>
            cases hr : splitDot rest with
            | nil => exact absurd hr ih
            | cons g gs => simp_all [splitDot]

/-- `accessor.split('.')` always produces at least one segment. -/
theorem jsSplitDot_ne_nil (s : String) : jsSplitDot s ≠ [] := by
  unfold jsSplitDot
  intro h
  exact splitDot_ne_nil s.data (List.map_eq_nil_iff.mp h)

/-! ### Totality of the access layer -/

/-- `do`-bind on a successful `Except` computation. -/
@[simp] theorem exceptBind_ok {ε α β : Type} (a : α) (f : α → Except ε β) :
    (Except.ok a >>= f) = f a := rfl

/-- `do`-bind on a failed `Except` computation. -/
@[simp] theorem exceptBind_error {ε α β : Type} (e : ε) (f : α → Except ε β) :
    ((Except.error e : Except ε α) >>= f) = .error e := rfl

/-- The shared access loop never throws when started on a value other than
`undefined`/`null` (the only receivers whose property read throws). -/
theorem accessLoop_total (dv : JVal) :
    ∀ (segs : List String) (start : JVal),
      isNull start = false → isUndef start = false →
      ∃ r, accessLoop dv start segs = .ok r := by
  intro segs
  induction segs with
  | nil => exact fun start _ _ => ⟨start, rfl⟩
  | cons key rest ih =>
      intro start h1 h2
      cases start with
      | undef => simp [isUndef] at h2
      | null => simp [isNull] at h1
      | bool b =>
          refine ⟨dv, ?_⟩
          simp [accessLoop, jsGet, Except.bind]
      | num n =>
          refine ⟨dv, ?_⟩
          simp [accessLoop, jsGet, Except.bind]
      | fn id =>
          refine ⟨dv, ?_⟩
          simp [accessLoop, jsGet, Except.bind]
      | str s =>
          cases hv : strProp s key with
          | undef => exact ⟨dv, by simp [accessLoop, jsGet, Except.bind, hv]⟩
          | null => exact ⟨dv, by simp [accessLoop, jsGet, Except.bind, hv]⟩
          | bool b =>
              obtain ⟨r, hr⟩ := ih (.bool b) rfl rfl
              exact ⟨r, by simp [accessLoop, jsGet, Except.bind, hv, hr]⟩
          | num n =>
              obtain ⟨r, hr⟩ := ih (.num n) rfl rfl
              exact ⟨r, by simp [accessLoop, jsGet, Except.bind, hv, hr]⟩
          | str t =>
              obtain ⟨r, hr⟩ := ih (.str t) rfl rfl
              exact ⟨r, by simp [accessLoop, jsGet, Except.bind, hv, hr]⟩
          | fn id =>
              obtain ⟨r, hr⟩ := ih (.fn id) rfl rfl
              exact ⟨r, by simp [accessLoop, jsGet, Except.bind, hv, hr]⟩
          | obj ar props =>
              obtain ⟨r, hr⟩ := ih (.obj ar props) rfl rfl
              exact ⟨r, by simp [accessLoop, jsGet, Except.bind, hv, hr]⟩
      | obj ar props =>
          cases hv : jsLookup props key with
          | undef => exact ⟨dv, by simp [accessLoop, jsGet, Except.bind, hv]⟩
          | null => exact ⟨dv, by simp [accessLoop, jsGet, Except.bind, hv]⟩
          | bool b =>
              obtain ⟨r, hr⟩ := ih (.bool b) rfl rfl
              exact ⟨r, by simp [accessLoop, jsGet, Except.bind, hv, hr]⟩
          | num n =>
              obtain ⟨r, hr⟩ := ih (.num n) rfl rfl
              exact ⟨r, by simp [accessLoop, jsGet, Except.bind, hv, hr]⟩
          | str t =>
              obtain ⟨r, hr⟩ := ih (.str t) rfl rfl
              exact ⟨r, by simp [accessLoop, jsGet, Except.bind, hv, hr]⟩
          | fn id =>
              obtain ⟨r, hr⟩ := ih (.fn id) rfl rfl
              exact ⟨r, by simp [accessLoop, jsGet, Except.bind, hv, hr]⟩
          | obj ar2 props2 =>
              obtain ⟨r, hr⟩ := ih (.obj ar2 props2) rfl rfl
              exact ⟨r, by simp [accessLoop, jsGet, Except.bind, hv, hr]⟩

/-- The current `safeAccess` never throws. -/
theorem safeAccess_total (data accessor dv : JVal) :
    ∃ r, safeAccess data accessor dv = .ok r := by
  unfold safeAccess
  by_cases hg : jsTypeof data ≠ "object" ∨ isNull data = true
  · exact ⟨dv, by simp [hg]⟩
  · push_neg at hg
    obtain ⟨h1, h2⟩ := hg
    cases data with
    | null => simp [isNull] at h2
    | obj ar props =>
        cases accessor with
        | str s =>
            obtain ⟨r, hr⟩ := accessLoop_total dv (jsSplitDot s) (.obj ar props) rfl rfl
            exact ⟨r, by simp [jsTypeof, isNull, hr]⟩
        | undef => exact ⟨dv, by simp [jsTypeof, isNull]⟩
        | null => exact ⟨dv, by simp [jsTypeof, isNull]⟩
        | bool b => exact ⟨dv, by simp [jsTypeof, isNull]⟩
        | num n => exact ⟨dv, by simp [jsTypeof, isNull]⟩
        | fn id => exact ⟨dv, by simp [jsTypeof, isNull]⟩
        | obj ar2 props2 => exact ⟨dv, by simp [jsTypeof, isNull]⟩
    | undef => simp [jsTypeof] at h1
    | bool b => simp [jsTypeof] at h1
    | num n => simp [jsTypeof] at h1
    | str s => simp [jsTypeof] at h1
    | fn id => simp [jsTypeof] at h1

/-- The older `safeAccess` never throws as long as the root is not `null`. -/
theorem safeAccess_v1_total (data accessor dv : JVal) (h : data ≠ .null) :
    ∃ r, safeAccess_v1 data accessor dv = .ok r := by
  unfold safeAccess_v1
  cases data with
  | null => exact absurd rfl h
  | obj ar props =>
      cases accessor with
      | str s =>
          obtain ⟨r, hr⟩ := accessLoop_total dv (jsSplitDot s) (.obj ar props) rfl rfl
          exact ⟨r, by simp [jsTypeof, hr]⟩
      | undef => exact ⟨dv, by simp [jsTypeof]⟩
      | null => exact ⟨dv, by simp [jsTypeof]⟩
      | bool b => exact ⟨dv, by simp [jsTypeof]⟩
      | num n => exact ⟨dv, by simp [jsTypeof]⟩
      | fn id => exact ⟨dv, by simp [jsTypeof]⟩
      | obj ar2 props2 => exact ⟨dv, by simp [jsTypeof]⟩
  | undef => exact ⟨dv, by simp [jsTypeof]⟩
  | bool b => exact ⟨dv, by simp [jsTypeof]⟩
  | num n => exact ⟨dv, by simp [jsTypeof]⟩
  | str s => exact ⟨dv, by simp [jsTypeof]⟩
  | fn id => exact ⟨dv, by simp [jsTypeof]⟩

/-- The comparison loop of the current `safeEqual` never throws. -/
theorem eqLoop_total (source target : JVal) :
    ∀ accs, ∃ b, eqLoop source target accs = .ok b := by
  intro accs
  induction accs with
  | nil => exact ⟨true, rfl⟩
  | cons acc rest ih =>
      obtain ⟨sv, hsv⟩ := safeAccess_total source (.str acc) .undef
      obtain ⟨tv, htv⟩ := safeAccess_total target (.str acc) .undef
      by_cases he : strictEq sv tv
      · obtain ⟨b, hb⟩ := ih
        exact ⟨b, by simp [eqLoop, Except.bind, hsv, htv, he, hb]⟩
      · exact ⟨false, by simp [eqLoop, Except.bind, hsv, htv, he]⟩

/-- The comparison loop of the older `safeEqual` never throws when the source
and target are not `null` (the only root the older `safeAccess` can throw
on, and one its guard has already excluded). -/
theorem eqLoop_v1_total (source target : JVal)
    (hs : source ≠ .null) (ht : target ≠ .null) :
    ∀ accs, ∃ b, eqLoop_v1 source target accs = .ok b := by
  intro accs
  induction accs with
  | nil => exact ⟨true, rfl⟩
  | cons acc rest ih =>
      obtain ⟨sv, hsv⟩ := safeAccess_v1_total source (.str acc) .undef hs
      obtain ⟨tv, htv⟩ := safeAccess_v1_total target (.str acc) .undef ht
      by_cases he : strictEq sv tv
      · obtain ⟨b, hb⟩ := ih
        exact ⟨b, by simp [eqLoop_v1, Except.bind, hsv, htv, he, hb]⟩
      · exact ⟨false, by simp [eqLoop_v1, Except.bind, hsv, htv, he]⟩

/-- The current `safeEqual` never throws. -/
theorem safeEqual_total (source target : JVal) :
    ∃ b, safeEqual source target = .ok b := by
  cases hs : isObject source with
  | false => exact ⟨false, by simp [safeEqual, hs]⟩
  | true =>
      cases ht : isObject target with
      | false => exact ⟨false, by simp [safeEqual, ht]⟩
      | true =>
          cases source with
          | obj ar props =>
              obtain ⟨b, hb⟩ :=
                eqLoop_total (.obj ar props) target (galProps props)
              exact ⟨b, by
                simp [safeEqual, hs, ht, getAccessorList, jsTypeof,
                  _getAccessorList, hb]⟩
          | undef => simp [isObject] at hs
          | null => simp [isObject] at hs
          | bool b => simp [isObject] at hs
          | num n => simp [isObject] at hs
          | str s => simp [isObject] at hs
          | fn id => simp [isObject] at hs

/-! ### Lemmas about the `safeSet` walk -/

/-- An operation name matching no switch case never assigns. -/
theorem setOp_unknown (operation : String)
    (h : operation ∉ ["add", "div", "mult", "set", "set-undefined", "sub"])
    (old value : JVal) : setOp operation old value = none := by
  simp only [List.mem_cons, List.mem_singleton, not_or] at h
  obtain ⟨h1, h2, h3, h4, h5, h6⟩ := h
  simp [setOp, h1, h2, h3, h4, h5, h6]

/-- With an operation name matching no switch case the value operand is
never consulted: `safeSet`'s walk gives identical results for any two
values. -/
theorem walk_value_irrel (operation : String)
    (h : operation ∉ ["add", "div", "mult", "set", "set-undefined", "sub"])
    (cm : Bool) :
    ∀ (segs : List String) (data value value2 : JVal),
      safeSetWalk value operation cm data segs =
        safeSetWalk value2 operation cm data segs := by
  intro segs
  induction segs with
  | nil => intro data v1 v2; rfl
  | cons key rest ih =>
      intro data v1 v2
      cases rest with
      | nil =>
          simp [safeSetWalk, setOp_unknown operation h]
      | cons seg rest2 =>
          have ih2 := fun d => ih d v1 v2
          simp only [safeSetWalk, ih2]

/-- Once the walk has auto-created a fresh `{}` every deeper slot is also
missing, is created in turn, and the terminal switch runs: the walk on a
fresh empty object with `createMissing` always reports success. -/
theorem walk_fresh (value : JVal) (operation : String) :
    ∀ segs : List String,
      (safeSetWalk value operation true (.obj false .nil) segs).1 = true := by
  intro segs
  induction segs with
  | nil => rfl
  | cons key rest ih =>
      cases rest with
      | nil =>
          cases hop : setOp operation (getOwn (.obj false .nil) key) value with
          | some w => simp [safeSetWalk, isArrayJS, hop]
          | none => simp [safeSetWalk, isArrayJS, hop]
      | cons seg rest2 =>
          simp [safeSetWalk, isArrayJS, getOwn, jsLookup, isUndef, setProp,
            setProps, isNull, jsTypeof, ih]

/-- Reading back the key a fresh `{}` was just written under. -/
theorem getOwn_setProp (ar : Bool) (props : JProps) (key : String) (v : JVal) :
    getOwn (setProp (.obj ar props) key v) key = v := by
  simp [setProp, getOwn, jsLookup_setProps]

/-- A `false` return of the walk leaves the tree untouched: the abort either
happens before anything was written, or — had a missing slot been created —
the walk could only have continued to success. -/
theorem walk_false_id (value : JVal) (operation : String) (cm : Bool) :
    ∀ (segs : List String) (ar : Bool) (props : JProps) (b : Bool) (d' : JVal),
      safeSetWalk value operation cm (.obj ar props) segs = (b, d') →
      b = false → d' = .obj ar props := by
  intro segs
  induction segs with
  | nil =>
      intro ar props b d' h hb
      subst hb
      simp [safeSetWalk] at h
  | cons key rest ih =>
      intro ar props b d' h hb
      subst hb
      cases rest with
      | nil =>
          by_cases hg : isArrayJS (.obj ar props) = true ∧
              ¬ validArrayIndex key = true
          · simp only [safeSetWalk, if_pos hg] at h
            simp at h
            exact h.symm
          · simp only [safeSetWalk, if_neg hg] at h
            cases hop : setOp operation (getOwn (.obj ar props) key) value with
            | some w => rw [hop] at h; simp at h
            | none => rw [hop] at h; simp at h
      | cons seg rest2 =>
          by_cases hg : isArrayJS (.obj ar props) = true ∧
              ¬ validArrayIndex key = true
          · simp only [safeSetWalk, if_pos hg] at h
            simp at h
            exact h.symm
          · simp only [safeSetWalk, if_neg hg] at h
            by_cases hc : cm = true ∧ isUndef (getOwn (.obj ar props) key) = true
            · -- a fresh `{}` was created: the rest of the walk must succeed,
              -- contradicting the `false` return
              have hcu : isUndef (getOwn (.obj ar props) key) = true := hc.2
              have hcm : cm = true := hc.1
              subst hcm
              have hfresh := walk_fresh value operation (seg :: rest2)
              simp [hcu, getOwn_setProp, isNull, jsTypeof] at h
              rcases h with ⟨h1, -⟩
              rw [hfresh] at h1
              simp at h1
            · simp only [if_neg hc] at h
              cases hnext : getOwn (.obj ar props) key with
              | undef => rw [hnext] at h; simp [isNull, jsTypeof] at h; exact h.symm
              | null => rw [hnext] at h; simp [isNull, jsTypeof] at h; exact h.symm
              | bool b2 => rw [hnext] at h; simp [isNull, jsTypeof] at h; exact h.symm
              | num n2 => rw [hnext] at h; simp [isNull, jsTypeof] at h; exact h.symm
              | str s2 => rw [hnext] at h; simp [isNull, jsTypeof] at h; exact h.symm
              | fn id2 => rw [hnext] at h; simp [isNull, jsTypeof] at h; exact h.symm
              | obj ar2 props2 =>
                  rw [hnext] at h
                  rcases hr : safeSetWalk value operation cm (.obj ar2 props2)
                      (seg :: rest2) with ⟨b2, d2⟩
                  rw [hr] at h
                  simp [isNull, jsTypeof] at h
                  obtain ⟨h1, h2⟩ := h
                  have hd2 : d2 = .obj ar2 props2 :=
                    ih ar2 props2 b2 d2 hr h1
                  subst hd2
                  have hlk : jsLookup props key = .obj ar2 props2 := hnext
                  rw [← h2]
                  simp [setProp, setProps_self props key _ (by simp) hlk]

/-- If the `set` walk reports success, the mutated tree is still an object
and reading the same segments back (default `undefined`) yields the written
value, provided it is not `null` (which `safeAccess` masks with the
default).  A written `undefined` is returned because it coincides with the
default. -/
theorem walk_set_read (cm : Bool) :
    ∀ (rest : List String) (key : String) (ar : Bool) (props : JProps)
      (value d' : JVal),
      value ≠ .null →
      safeSetWalk value "set" cm (.obj ar props) (key :: rest) = (true, d') →
      (∃ ar2 props2, d' = .obj ar2 props2) ∧
        accessLoop .undef d' (key :: rest) = .ok value := by
  intro rest
  induction rest with
  | nil =>
      intro key ar props value d' hv h
      by_cases hg : isArrayJS (.obj ar props) = true ∧
          ¬ validArrayIndex key = true
      · simp only [safeSetWalk, if_pos hg] at h
        simp at h
      · simp only [safeSetWalk, if_neg hg] at h
        have hop : setOp "set" (getOwn (.obj ar props) key) value =
            some value := by simp [setOp]
        rw [hop] at h
        simp at h
        refine ⟨⟨ar, setProps props key value, ?_⟩, ?_⟩
        · rw [← h]; rfl
        · rw [← h]
          cases value with
          | null => exact absurd rfl hv
          | undef => simp [accessLoop, jsGet, setProp, jsLookup_setProps]
          | bool b => simp [accessLoop, jsGet, setProp, jsLookup_setProps]
          | num n => simp [accessLoop, jsGet, setProp, jsLookup_setProps]
          | str s => simp [accessLoop, jsGet, setProp, jsLookup_setProps]
          | fn id => simp [accessLoop, jsGet, setProp, jsLookup_setProps]
          | obj ar2 props2 =>
              simp [accessLoop, jsGet, setProp, jsLookup_setProps]
  | cons seg rest2 ih =>
      intro key ar props value d' hv h
      by_cases hg : isArrayJS (.obj ar props) = true ∧
          ¬ validArrayIndex key = true
      · simp only [safeSetWalk, if_pos hg] at h
        simp at h
      · simp only [safeSetWalk, if_neg hg] at h
        by_cases hc : cm = true ∧ isUndef (getOwn (.obj ar props) key) = true
        · -- a fresh `{}` is created and descended into
          have hcu : isUndef (getOwn (.obj ar props) key) = true := hc.2
          have hcm : cm = true := hc.1
          subst hcm
          rcases hr : safeSetWalk value "set" true (.obj false .nil)
              (seg :: rest2) with ⟨b2, d2⟩
          simp [hcu, getOwn_setProp, isNull, jsTypeof, hr] at h
          obtain ⟨h1, h2⟩ := h
          obtain ⟨⟨ar3, props3, hd2⟩, hread⟩ :=
            ih seg false .nil value d2 hv (by rw [hr, h1])
          refine ⟨⟨ar, _, (h2.symm : d' = _)⟩, ?_⟩
          rw [← h2]
          simp [accessLoop, jsGet, setProp, jsLookup_setProps]
          rw [hd2]
          rw [hd2] at hread
          simpa [accessLoop, jsGet] using hread
        · simp only [if_neg hc] at h
          cases hnext : getOwn (.obj ar props) key with
          | undef => rw [hnext] at h; simp [isNull, jsTypeof] at h
          | null => rw [hnext] at h; simp [isNull, jsTypeof] at h
          | bool b2 => rw [hnext] at h; simp [isNull, jsTypeof] at h
          | num n2 => rw [hnext] at h; simp [isNull, jsTypeof] at h
          | str s2 => rw [hnext] at h; simp [isNull, jsTypeof] at h
          | fn id2 => rw [hnext] at h; simp [isNull, jsTypeof] at h
          | obj ar2 props2 =>
              rw [hnext] at h
              rcases hr : safeSetWalk value "set" cm (.obj ar2 props2)
                  (seg :: rest2) with ⟨b2, d2⟩
              rw [hr] at h
              simp [isNull, jsTypeof] at h
              obtain ⟨h1, h2⟩ := h
              obtain ⟨⟨ar3, props3, hd2⟩, hread⟩ :=
                ih seg ar2 props2 value d2 hv (by rw [hr, h1])
              refine ⟨⟨ar, _, (h2.symm : d' = _)⟩, ?_⟩
              rw [← h2]
              simp [accessLoop, jsGet, setProp, jsLookup_setProps]
              rw [hd2]
              rw [hd2] at hread
              simpa [accessLoop, jsGet] using hread

/-! ### Lemmas about accessor enumeration -/

/-- `takeWhile` consumes a fully satisfying block and stops at the first
failing element. -/
theorem takeWhile_all_append (p : Char → Bool) (c : Char) (hc : p c = false) :
    ∀ (a y : List Char), a.all p = true → (a ++ c :: y).takeWhile p = a := by
  intro a y
  induction a with
  | nil => intro _; simp [List.takeWhile_cons, hc]
  | cons x xs ih =>
      intro h
      simp only [List.all_cons, Bool.and_eq_true] at h
      simp [List.takeWhile_cons, h.1, ih h.2]

/-- `takeWhile` keeps a list all of whose elements satisfy the test. -/
theorem takeWhile_of_all (p : Char → Bool) :
    ∀ a : List Char, a.all p = true → a.takeWhile p = a := by
  intro a
  induction a with
  | nil => intro _; rfl
  | cons x xs ih =>
      intro h
      simp only [List.all_cons, Bool.and_eq_true] at h
      simp [List.takeWhile_cons, h.1, ih h.2]

/-- A dot-free key is its own first segment. -/
theorem headSeg_dotFree (k : String) (h : dotFree k = true) : headSeg k = k := by
  unfold headSeg
  unfold dotFree at h
  rw [takeWhile_of_all _ _ h]

/-- The first segment of `key ++ "." ++ child` is `key` when the key is
dot-free. -/
theorem headSeg_join (k c : String) (h : dotFree k = true) :
    headSeg (k ++ "." ++ c) = k := by
  unfold headSeg
  have hd : (k ++ "." ++ c).data = k.data ++ '.' :: c.data := by
    rw [String.data_append, String.data_append]
    simp
  rw [hd, takeWhile_all_append _ '.' (by decide) k.data c.data h]

/-- Every accessor produced for an object starts with one of its keys. -/
theorem galProps_headSeg (props : JProps) (acc : String)
    (hdf : keysDotFree props = true) (hm : acc ∈ galProps props) :
    headSeg acc ∈ JProps.keys props := by
  induction props using JProps.inductionOn with
  | nil => simp [galProps] at hm
  | cons key v rest ih =>
      simp only [keysDotFree, JProps.keys, List.all_cons,
        Bool.and_eq_true] at hdf
      obtain ⟨hk, hrest⟩ := hdf
      simp only [galProps] at hm
      rcases List.mem_append.mp hm with hm1 | hm2
      · by_cases ht : jsTypeof v = "object"
        · rw [if_pos ht] at hm1
          obtain ⟨child, _, rfl⟩ := List.mem_map.mp hm1
          simp [JProps.keys, headSeg_join key child hk]
        · rw [if_neg ht] at hm1
          simp at hm1
          rw [hm1, headSeg_dotFree key hk]
          simp [JProps.keys]
      · have : headSeg acc ∈ JProps.keys rest := ih hrest hm2
        simp [JProps.keys, this]

/-- A key holding `null` contributes no accessors: `typeof null` is
`'object'`, and the recursion into `null` yields nothing, so no produced
accessor has that key as its first segment (keys assumed dot-free and
without duplicates, as JS object keys are). -/
theorem galProps_null_key (props : JProps) (k : String) :
    ∀ acc, keysDotFree props = true → (JProps.keys props).Nodup →
      jsLookup props k = .null → acc ∈ galProps props → headSeg acc ≠ k := by
  induction props using JProps.inductionOn with
  | nil =>
      intro acc _ _ hlk _
      simp [jsLookup] at hlk
  | cons key v rest ih =>
      intro acc hdf hnd hlk hm
      simp only [keysDotFree, JProps.keys, List.all_cons,
        Bool.and_eq_true] at hdf
      obtain ⟨hk, hrest⟩ := hdf
      simp only [JProps.keys, List.nodup_cons] at hnd
      obtain ⟨hnd1, hnd2⟩ := hnd
      by_cases hkey : key = k
      · subst hkey
        have hv : v = .null := by simpa [jsLookup] using hlk
        subst hv
        simp only [galProps] at hm
        rw [if_pos (by simp [jsTypeof])] at hm
        simp only [_getAccessorList, List.map_nil, List.nil_append] at hm
        intro hcontra
        have hmem := galProps_headSeg rest acc hrest hm
        rw [hcontra] at hmem
        exact hnd1 hmem
      · have hlk2 : jsLookup rest k = .null := by
          simpa [jsLookup, hkey] using hlk
        simp only [galProps] at hm
        rcases List.mem_append.mp hm with hm1 | hm2
        · by_cases ht : jsTypeof v = "object"
          · rw [if_pos ht] at hm1
            obtain ⟨child, _, rfl⟩ := List.mem_map.mp hm1
            rw [headSeg_join key child hk]
            exact hkey
          · rw [if_neg ht] at hm1
            simp at hm1
            rw [hm1, headSeg_dotFree key hk]
            exact hkey
        · exact ih acc hrest hnd2 hlk2 hm2

/-- The enumeration descends into every own value of object type — arrays
and array elements included — dot-joining the child accessors under the
key. -/
theorem galProps_descend (props : JProps) :
    ∀ (k : String) (v : JVal) (acc : String),
      (k, v) ∈ JProps.toList props → jsTypeof v = "object" →
      acc ∈ _getAccessorList v →
      (k ++ "." ++ acc) ∈ galProps props := by
  induction props using JProps.inductionOn with
  | nil =>
      intro k v acc hm
      simp [JProps.toList] at hm
  | cons key w rest ih =>
      intro k v acc hm ht hacc
      simp only [JProps.toList] at hm
      rcases List.mem_cons.mp hm with heq | hm2
      · rw [Prod.mk.injEq] at heq
        obtain ⟨rfl, rfl⟩ := heq
        simp only [galProps]
        apply List.mem_append_left
        rw [if_pos ht]
        exact List.mem_map.mpr ⟨acc, hacc, rfl⟩
      · simp only [galProps]
        exact List.mem_append_right _ (ih k v acc hm2 ht hacc)

/-! ### Claim theorems -/

/-- C1 (corrected): the current `safeAccess` (functions.ts:1423) never
throws for any inputs, returning the default for a non-object or `null`
root and for a non-string accessor; the older variant (functions.ts:310)
also never throws provided its root is not `null` — but a `null` root slips
through its `typeof`-only guard and throws (see the counterexample). -/
theorem c1_safeAccess_never_throws : ∀ data accessor dv : JVal,
    (∃ r, safeAccess data accessor dv = .ok r) ∧
    (jsTypeof data ≠ "object" ∨ data = .null →
      safeAccess data accessor dv = .ok dv) ∧
    ((∀ s, accessor ≠ .str s) → safeAccess data accessor dv = .ok dv) ∧
    (data ≠ .null → ∃ r, safeAccess_v1 data accessor dv = .ok r) := by
  intro data accessor dv
  refine ⟨safeAccess_total data accessor dv, ?_, ?_,
    safeAccess_v1_total data accessor dv⟩
  · intro h
    have hg : jsTypeof data ≠ "object" ∨ isNull data = true := by
      rcases h with h | h
      · exact Or.inl h
      · subst h; exact Or.inr rfl
    unfold safeAccess
    rw [if_pos hg]
  · intro h
    unfold safeAccess
    by_cases hg : jsTypeof data ≠ "object" ∨ isNull data = true
    · rw [if_pos hg]
    · rw [if_neg hg]
      cases accessor with
      | str s => exact absurd rfl (h s)
      | undef => rfl
      | null => rfl
      | bool b => rfl
      | num n => rfl
      | fn id => rfl
      | obj ar props => rfl

/-- C1 counterexample: the older `safeAccess` at functions.ts:310 throws a
`TypeError` on a `null` root (its guard `typeof data !== 'object'` passes
`null`), contradicting the claim that no input ever raises. -/
theorem c1_counterexample :
    safeAccess_v1 .null (.str "a") .undef = .error () := rfl

/-- C1 witness. -/
theorem c1_witness :
    safeAccess (.num (.fin 7)) (.str "x") (.str "d") = .ok (.str "d") ∧
    (∃ r, safeAccess_v1 (.obj false (.cons "a" (.num (.fin 1)) .nil))
      (.str "a") .undef = .ok r) :=
  ⟨(c1_safeAccess_never_throws _ _ _).2.1 (Or.inl (by decide)),
   (c1_safeAccess_never_throws _ _ _).2.2.2 (by intro h; cases h)⟩

/-- C2 (corrected): `safeSet` performs no runtime validation of the
operation name (it is restricted only statically by the `SafeSetOperation`
union type): with an unrecognized name it raises only for a non-object
`data` or non-string `accessor`, otherwise walks the path normally, never
consults the value operand (the switch has no matching case, so nothing is
written at the terminal slot), and returns normally — contradicting the
claimed input-validation failure. -/
theorem c2_unknown_operation :
    ∀ (data accessor value : JVal) (operation : String) (cm : Bool),
    operation ∉ ["add", "div", "mult", "set", "set-undefined", "sub"] →
    jsTypeof data = "object" → data ≠ .null → (∃ s, accessor = .str s) →
    (∃ b d', safeSet data accessor value operation cm = .ok (b, d')) ∧
    (∀ value2, safeSet data accessor value operation cm =
      safeSet data accessor value2 operation cm) := by
  intro data accessor value op cm hop hobj hnn hstr
  obtain ⟨s, rfl⟩ := hstr
  cases data with
  | null => exact absurd rfl hnn
  | obj ar props =>
      constructor
      · rcases hw : safeSetWalk value op cm (.obj ar props) (jsSplitDot s)
          with ⟨b, d⟩
        exact ⟨b, d, by simp [safeSet, jsTypeof, hw]⟩
      · intro v2
        simp only [safeSet, jsTypeof]
        rw [walk_value_irrel op hop cm (jsSplitDot s) (.obj ar props) value v2]
  | undef => simp [jsTypeof] at hobj
  | bool b => simp [jsTypeof] at hobj
  | num n => simp [jsTypeof] at hobj
  | str t => simp [jsTypeof] at hobj
  | fn id => simp [jsTypeof] at hobj

/-- C2 counterexample: an unknown operation name does not raise — it
succeeds (returns `true`) and writes nothing. -/
theorem c2_counterexample :
    safeSet (.obj false (.cons "a" (.num (.fin 1)) .nil)) (.str "a")
      (.num (.fin 5)) "bogus" true =
      .ok (true, .obj false (.cons "a" (.num (.fin 1)) .nil)) := rfl

/-- C2 witness. -/
theorem c2_witness :
    ∃ b d', safeSet (.obj false .nil) (.str "x.y") (.num (.fin 5))
      "bogus" true = .ok (b, d') :=
  (c2_unknown_operation (.obj false .nil) (.str "x.y") (.num (.fin 5))
    "bogus" true (by decide) rfl (by intro h; cases h) ⟨"x.y", rfl⟩).1

/-- C3 (corrected): the current `safeEqual` (functions.ts:1498) never
throws, and returns `false` immediately whenever either input fails
`isObject`; the older variant (functions.ts:382) is total whenever
`typeof source === 'object'`, but its guard only rejects
`undefined`/`null`, so a primitive source reaches `getAccessorList` and
throws (see the counterexample). -/
theorem c3_safeEqual_guard : ∀ source target : JVal,
    (∃ b, safeEqual source target = .ok b) ∧
    (isObject source = false ∨ isObject target = false →
      safeEqual source target = .ok false) ∧
    (jsTypeof source = "object" → ∃ b, safeEqual_v1 source target = .ok b) := by
  intro s t
  refine ⟨safeEqual_total s t, ?_, ?_⟩
  · intro h
    have hg : ¬ isObject s = true ∨ ¬ isObject t = true := by
      rcases h with h | h
      · exact Or.inl (by simp [h])
      · exact Or.inr (by simp [h])
    unfold safeEqual
    rw [if_pos hg]
  · intro hobj
    cases s with
    | null => exact ⟨false, by simp [safeEqual_v1, isUndef, isNull]⟩
    | obj ar props =>
        cases t with
        | undef => exact ⟨false, by simp [safeEqual_v1, isUndef, isNull]⟩
        | null => exact ⟨false, by simp [safeEqual_v1, isUndef, isNull]⟩
        | bool b =>
            obtain ⟨b2, hb2⟩ := eqLoop_v1_total (.obj ar props) (.bool b)
              (by intro h; cases h) (by intro h; cases h) (galProps props)
            exact ⟨b2, by
              simp [safeEqual_v1, isUndef, isNull, getAccessorList, jsTypeof,
                _getAccessorList, hb2]⟩
        | num n =>
            obtain ⟨b2, hb2⟩ := eqLoop_v1_total (.obj ar props) (.num n)
              (by intro h; cases h) (by intro h; cases h) (galProps props)
            exact ⟨b2, by
              simp [safeEqual_v1, isUndef, isNull, getAccessorList, jsTypeof,
                _getAccessorList, hb2]⟩
        | str u =>
            obtain ⟨b2, hb2⟩ := eqLoop_v1_total (.obj ar props) (.str u)
              (by intro h; cases h) (by intro h; cases h) (galProps props)
            exact ⟨b2, by
              simp [safeEqual_v1, isUndef, isNull, getAccessorList, jsTypeof,
                _getAccessorList, hb2]⟩
        | fn id =>
            obtain ⟨b2, hb2⟩ := eqLoop_v1_total (.obj ar props) (.fn id)
              (by intro h; cases h) (by intro h; cases h) (galProps props)
            exact ⟨b2, by
              simp [safeEqual_v1, isUndef, isNull, getAccessorList, jsTypeof,
                _getAccessorList, hb2]⟩
        | obj ar2 props2 =>
            obtain ⟨b2, hb2⟩ := eqLoop_v1_total (.obj ar props)
              (.obj ar2 props2) (by intro h; cases h) (by intro h; cases h)
              (galProps props)
            exact ⟨b2, by
              simp [safeEqual_v1, isUndef, isNull, getAccessorList, jsTypeof,
                _getAccessorList, hb2]⟩
    | undef => simp [jsTypeof] at hobj
    | bool b => simp [jsTypeof] at hobj
    | num n => simp [jsTypeof] at hobj
    | str u => simp [jsTypeof] at hobj
    | fn id => simp [jsTypeof] at hobj

/-- C3 counterexample: the older `safeEqual` at functions.ts:382 throws a
`TypeError` for a primitive source (its guard passes any non-`null`,
non-`undefined` value and `getAccessorList` then rejects the number). -/
theorem c3_counterexample :
    safeEqual_v1 (.num (.fin 5)) (.obj false .nil) = .error () := rfl

/-- C3 witness. -/
theorem c3_witness :
    safeEqual (.num (.fin 5)) (.obj false .nil) = .ok false ∧
    (∃ b, safeEqual_v1 .null (.obj false .nil) = .ok b) :=
  ⟨(c3_safeEqual_guard _ _).2.1 (Or.inl (by decide)),
   (c3_safeEqual_guard _ _).2.2 rfl⟩

/-- C4 (corrected): `_getAccessorList` recurses into every own value of
`typeof 'object'` — including arrays and including array elements that are
themselves containers — so the enumeration does descend past array index
segments: for `{d:[{e:1}]}` it produces exactly `['d.0.e']`, contradicting
the claimed array-terminal behavior. -/
theorem c4_descends_into_arrays :
    (∀ (ar : Bool) (props : JProps) (k : String) (v : JVal) (acc : String),
      (k, v) ∈ JProps.toList props → jsTypeof v = "object" →
      acc ∈ _getAccessorList v →
      (k ++ "." ++ acc) ∈ _getAccessorList (.obj ar props)) ∧
    getAccessorList (.obj false (.cons "d" (.obj true (.cons "0"
      (.obj false (.cons "e" (.num (.fin 1)) .nil)) .nil)) .nil)) =
      .ok ["d.0.e"] := by
  constructor
  · intro ar props k v acc hm ht hacc
    exact galProps_descend props k v acc hm ht hacc
  · rfl

/-- C4 counterexample: the accessor `d.0.e` — which extends past the array
index segment `0` — is produced for `{d:[{e:1}]}`. -/
theorem c4_counterexample :
    "d.0.e" ∈ _getAccessorList (.obj false (.cons "d" (.obj true (.cons "0"
      (.obj false (.cons "e" (.num (.fin 1)) .nil)) .nil)) .nil)) :=
  List.mem_singleton.mpr rfl

/-- C4 witness. -/
theorem c4_witness :
    ("d" ++ "." ++ "0.e") ∈ _getAccessorList (.obj false (.cons "d"
      (.obj true (.cons "0" (.obj false (.cons "e" (.num (.fin 1)) .nil))
        .nil)) .nil)) :=
  c4_descends_into_arrays.1 false _ "d"
    (.obj true (.cons "0" (.obj false (.cons "e" (.num (.fin 1)) .nil)) .nil))
    "0.e" (List.mem_singleton.mpr rfl) rfl (List.mem_singleton.mpr rfl)

/-- C5 (corrected): write-then-read holds for every value except `null` —
if `safeSet(T, p, v, 'set')` returns `true` then `safeAccess(T, p)` returns
`v` for any `v ≠ null` (a written `undefined` is returned because it
coincides with the default); a written `null` is masked by `safeAccess`'s
default substitution and reads back as `undefined` (see the
counterexample). -/
theorem c5_write_then_read :
    ∀ (data accessor value : JVal) (cm : Bool) (d' : JVal),
    value ≠ .null →
    safeSet data accessor value "set" cm = .ok (true, d') →
    safeAccess d' accessor .undef = .ok value := by
  intro data accessor value cm d' hv h
  unfold safeSet at h
  by_cases hobj : jsTypeof data ≠ "object"
  · rw [if_pos hobj] at h
    exact Except.noConfusion h
  · rw [if_neg hobj] at h
    cases accessor with
    | str s =>
        cases data with
        | null =>
            have h2 : nullRootResult "set" (jsSplitDot s) =
                .ok (true, d') := h
            rcases hsegs : jsSplitDot s with _ | ⟨k, rest⟩
            · exact absurd hsegs (jsSplitDot_ne_nil s)
            · rw [hsegs] at h2
              cases rest with
              | nil => simp [nullRootResult, isOpName] at h2
              | cons a b => exact Except.noConfusion h2
        | obj ar props =>
            have h2 : (Except.ok (safeSetWalk value "set" cm (.obj ar props)
                (jsSplitDot s)) : Except Unit (Bool × JVal)) =
                .ok (true, d') := h
            rcases hsegs : jsSplitDot s with _ | ⟨k, rest⟩
            · exact absurd hsegs (jsSplitDot_ne_nil s)
            · rw [hsegs] at h2
              have h' : safeSetWalk value "set" cm (.obj ar props)
                  (k :: rest) = (true, d') := by
                injection h2
              obtain ⟨⟨ar2, props2, hd⟩, hread⟩ :=
                walk_set_read cm rest k ar props value d' hv h'
              unfold safeAccess
              subst hd
              rw [if_neg (by simp [jsTypeof, isNull])]
              show accessLoop .undef (.obj ar2 props2) (jsSplitDot s) =
                .ok value
              rw [hsegs]
              exact hread
        | undef => simp [jsTypeof] at hobj
        | bool b => simp [jsTypeof] at hobj
        | num n => simp [jsTypeof] at hobj
        | str t => simp [jsTypeof] at hobj
        | fn id => simp [jsTypeof] at hobj
    | undef => exact Except.noConfusion h
    | null => exact Except.noConfusion h
    | bool b => exact Except.noConfusion h
    | num n => exact Except.noConfusion h
    | fn id => exact Except.noConfusion h
    | obj ar2 props2 => exact Except.noConfusion h

/-- C5 counterexample: for `v = null` the round trip fails — the write
succeeds (`true`) but the read substitutes the default `undefined`, and
`undefined` is not `null`. -/
theorem c5_counterexample :
    safeSet (.obj false .nil) (.str "a") .null "set" true =
      .ok (true, .obj false (.cons "a" .null .nil)) ∧
    safeAccess (.obj false (.cons "a" .null .nil)) (.str "a") .undef =
      .ok .undef ∧
    (JVal.undef ≠ JVal.null) :=
  ⟨rfl, rfl, by intro h; cases h⟩

/-- C5 witness. -/
theorem c5_witness :
    safeAccess (.obj false (.cons "a" (.obj false (.cons "b"
      (.num (.fin 5)) .nil)) .nil)) (.str "a.b") .undef =
      .ok (.num (.fin 5)) :=
  c5_write_then_read (.obj false .nil) (.str "a.b") (.num (.fin 5)) true
    (.obj false (.cons "a" (.obj false (.cons "b" (.num (.fin 5)) .nil))
      .nil)) (by intro h; cases h) rfl

/-- C6 (confirmed): the missing-creation toggle behaves exactly as claimed:
with `createMissing = false` the write of `5` at `"x.y"` into `{}` fails
(`false`) leaving `{}` unchanged; with `createMissing = true` it succeeds
(`true`) producing `{x:{y:5}}`. -/
theorem c6_createMissing_toggle :
    safeSet (.obj false .nil) (.str "x.y") (.num (.fin 5)) "set" false =
      .ok (false, .obj false .nil) ∧
    safeSet (.obj false .nil) (.str "x.y") (.num (.fin 5)) "set" true =
      .ok (true, .obj false (.cons "x" (.obj false (.cons "y"
        (.num (.fin 5)) .nil)) .nil)) :=
  ⟨rfl, rfl⟩

/-- C7 (confirmed): the array index guard behaves exactly as claimed:
writing at `"arr.bogus"` (`+'bogus'` is `NaN`) and at `"arr.-1"` (negative)
into `{arr:[1,2]}` both return `false` and leave the array unchanged. -/
theorem c7_array_index_guard :
    safeSet (.obj false (.cons "arr" (.obj true (.cons "0" (.num (.fin 1))
        (.cons "1" (.num (.fin 2)) .nil))) .nil))
      (.str "arr.bogus") (.num (.fin 9)) "set" true =
      .ok (false, .obj false (.cons "arr" (.obj true (.cons "0"
        (.num (.fin 1)) (.cons "1" (.num (.fin 2)) .nil))) .nil)) ∧
    safeSet (.obj false (.cons "arr" (.obj true (.cons "0" (.num (.fin 1))
        (.cons "1" (.num (.fin 2)) .nil))) .nil))
      (.str "arr.-1") (.num (.fin 9)) "set" true =
      .ok (false, .obj false (.cons "arr" (.obj true (.cons "0"
        (.num (.fin 1)) (.cons "1" (.num (.fin 2)) .nil))) .nil)) :=
  ⟨rfl, rfl⟩

/-- C8 (confirmed): equality is asymmetric exactly as claimed:
`safeEqual({a:1}, {a:1,b:2})` is `true` (only the source's accessors are
checked) while `safeEqual({a:1,b:2}, {a:1})` is `false` (the source leaf
`b` is missing from the target). -/
theorem c8_equality_asymmetry :
    safeEqual (.obj false (.cons "a" (.num (.fin 1)) .nil))
      (.obj false (.cons "a" (.num (.fin 1)) (.cons "b" (.num (.fin 2))
        .nil))) = .ok true ∧
    safeEqual (.obj false (.cons "a" (.num (.fin 1)) (.cons "b"
        (.num (.fin 2)) .nil)))
      (.obj false (.cons "a" (.num (.fin 1)) .nil)) = .ok false :=
  ⟨rfl, rfl⟩

/-- C9 (confirmed): a key holding `null` is silently dropped by the
enumeration — `typeof null === 'object'` sends it into the recursion, and
`for...in` over `null` yields nothing — so no produced accessor has that
key as its first segment (object keys being dot-free and duplicate-free, as
JS object keys are); consequently `safeEqual({a:null}, {})` is `true`. -/
theorem c9_null_keys_dropped :
    (∀ (ar : Bool) (props : JProps) (k acc : String),
      keysDotFree props = true → (JProps.keys props).Nodup →
      jsLookup props k = .null → acc ∈ _getAccessorList (.obj ar props) →
      headSeg acc ≠ k) ∧
    safeEqual (.obj false (.cons "a" .null .nil)) (.obj false .nil) =
      .ok true := by
  constructor
  · intro ar props k acc hdf hnd hlk hm
    exact galProps_null_key props k acc hdf hnd hlk hm
  · rfl

/-- C9 witness. -/
theorem c9_witness :
    headSeg "b" ≠ "a" :=
  c9_null_keys_dropped.1 false
    (.cons "a" .null (.cons "b" (.num (.fin 1)) .nil)) "a" "b"
    rfl (by decide) rfl (List.mem_singleton.mpr rfl)

/-- C10 (confirmed): a `false` return of `safeSet` is atomic — the root
(with everything reachable from it) is exactly as before the call.  A
structural abort can only happen before any auto-creation: once a missing
slot has been created, every deeper slot is also missing, gets created in
turn, and the call returns `true`. -/
theorem c10_false_is_atomic :
    ∀ (data accessor value : JVal) (operation : String) (cm : Bool)
      (d' : JVal),
    safeSet data accessor value operation cm = .ok (false, d') →
    d' = data := by
  intro data accessor value op cm d' h
  unfold safeSet at h
  by_cases hobj : jsTypeof data ≠ "object"
  · rw [if_pos hobj] at h
    exact Except.noConfusion h
  · rw [if_neg hobj] at h
    cases accessor with
    | str s =>
        cases data with
        | null =>
            have h2 : nullRootResult op (jsSplitDot s) =
                .ok (false, d') := h
            rcases hsegs : jsSplitDot s with _ | ⟨k, rest⟩
            · exact absurd hsegs (jsSplitDot_ne_nil s)
            · rw [hsegs] at h2
              cases rest with
              | nil =>
                  by_cases hop : isOpName op = true
                  · simp [nullRootResult, hop] at h2
                  · simp [nullRootResult, hop] at h2
              | cons a b => exact Except.noConfusion h2
        | obj ar props =>
            have h2 : (Except.ok (safeSetWalk value op cm (.obj ar props)
                (jsSplitDot s)) : Except Unit (Bool × JVal)) =
                .ok (false, d') := h
            rcases hsegs : jsSplitDot s with _ | ⟨k, rest⟩
            · exact absurd hsegs (jsSplitDot_ne_nil s)
            · rw [hsegs] at h2
              have h' : safeSetWalk value op cm (.obj ar props)
                  (k :: rest) = (false, d') := by
                injection h2
              exact walk_false_id value op cm (k :: rest) ar props false d'
                h' rfl
        | undef => simp [jsTypeof] at hobj
        | bool b => simp [jsTypeof] at hobj
        | num n => simp [jsTypeof] at hobj
        | str t => simp [jsTypeof] at hobj
        | fn id => simp [jsTypeof] at hobj
    | undef => exact Except.noConfusion h
    | null => exact Except.noConfusion h
    | bool b => exact Except.noConfusion h
    | num n => exact Except.noConfusion h
    | fn id => exact Except.noConfusion h
    | obj ar2 props2 => exact Except.noConfusion h

/-- C10 witness. -/
theorem c10_witness :
    (.obj false (.cons "a" (.num (.fin 1)) .nil) : JVal) =
      .obj false (.cons "a" (.num (.fin 1)) .nil) :=
  c10_false_is_atomic (.obj false (.cons "a" (.num (.fin 1)) .nil))
    (.str "a.b") (.num (.fin 5)) "set" false
    (.obj false (.cons "a" (.num (.fin 1)) .nil)) rfl

end JS
